import Mathlib

/-! Shallow embedding of the Work-Calendar-Aware Status Duration Engine of
`src/backend/main.py` (work-scripts-interface), together with the report
aggregation and display rules of `process_data` and `save_to_excel_multi`.

Time model: a Python `datetime` carrying a fixed-offset `tzinfo` is embedded as
a wall-clock reading (seconds since an epoch whose day 0 is a Monday, so that
`weekday = day mod 7` matches Python's Monday = 0 convention) together with the
UTC offset, in seconds, of its `tzinfo`.  Python compares aware datetimes,
subtracts them and takes `max`/`min` of them by absolute instant
(`wall - offset`), while `.date()`, `.weekday()` and `.replace(hour=...)` act
on the wall clock and keep the `tzinfo`; the embedding does the same.
Sub-second precision is ignored (the code sets `microsecond=0` at every point
that matters).

Timezone constants: `parse_iso_to_msk` converts an instant with
`astimezone(pytz.timezone("Europe/Moscow"))`, which for modern instants (after
2014-10-26) yields UTC+03:00, i.e. 10800 seconds.  The period bounds are built
with `datetime.replace(tzinfo=MOSCOW_TZ, ...)`, which attaches the pytz base
transition info for Europe/Moscow, namely LMT = UTC+02:30:00, i.e. 9000 seconds
(pytz rounds the tzdata value +02:30:17 to whole minutes).  Both offsets are
therefore part of the embedding.  Python `str.lower` is embedded as the
character-wise `pyLower` (ASCII; the statuses of interest are ASCII). -/

/-- Python `str.lower`, character by character (`String.toLower` of the
standard library, written over the character list so that it computes by
kernel reduction). -/
def pyLower (s : String) : String := ⟨s.data.map Char.toLower⟩

/-- Offset attached by `astimezone(MOSCOW_TZ)` to event timestamps (UTC+03:00). -/
def MSK_OFFSET : Int := 10800

/-- Offset attached by `datetime.replace(tzinfo=MOSCOW_TZ)` to the period bounds:
pytz's base info for Europe/Moscow is LMT = UTC+02:30:00. -/
def PYTZ_LMT_OFFSET : Int := 9000

/-- Source constant `WORK_START_HOUR = 8`. -/
def WORK_START_HOUR : Nat := 8

/-- Source constant `WORK_END_HOUR = 17`. -/
def WORK_END_HOUR : Nat := 17

/-- A timezone-aware Python `datetime`: wall-clock seconds plus the fixed UTC
offset of its `tzinfo`.  Day 0 of the wall clock is a Monday. -/
structure PyDateTime where
  wall : Nat
  offset : Int
deriving DecidableEq, Repr

/-- The absolute instant (seconds, UTC) an aware datetime denotes; Python uses
this for comparison and subtraction of aware datetimes. -/
def absInstant (dt : PyDateTime) : Int := (dt.wall : Int) - dt.offset

/-- Python `.date()` as a day index of the wall clock. -/
def pyDate (dt : PyDateTime) : Nat := dt.wall / 86400

/-- Python `.weekday()`: Monday = 0, ..., Sunday = 6. -/
def pyWeekday (dt : PyDateTime) : Nat := pyDate dt % 7

/-- Source `is_working_day`: `d.weekday() not in (5, 6)`. -/
def is_working_day (d : PyDateTime) : Bool :=
  pyWeekday d != 5 && pyWeekday d != 6

/-- Python `dt.replace(hour=h, minute=0, second=0, microsecond=0)`. -/
def replaceHour (dt : PyDateTime) (h : Nat) : PyDateTime :=
  ⟨(dt.wall / 86400) * 86400 + h * 3600, dt.offset⟩

/-- Python `(cur + timedelta(days=1)).replace(hour=WORK_START_HOUR, minute=0,
second=0, microsecond=0)`: arithmetic on aware datetimes acts on the wall clock
and keeps the `tzinfo`. -/
def nextDay8 (cur : PyDateTime) : PyDateTime :=
  ⟨((cur.wall + 86400) / 86400) * 86400 + WORK_START_HOUR * 3600, cur.offset⟩

/-- Python `max(a, b)` on aware datetimes: compares absolute instants, keeps
the first argument on ties. -/
def pyMax (a b : PyDateTime) : PyDateTime :=
  if absInstant a < absInstant b then b else a

/-- Python `min(a, b)` on aware datetimes. -/
def pyMin (a b : PyDateTime) : PyDateTime :=
  if absInstant b < absInstant a then b else a

/-- The `while cur.date() <= end_dt.date()` loop of `add_working_time_segment`,
with explicit fuel so that the definition is structural and computes; `none`
means the fuel ran out, which never happens for the fuel `awtsFuel` (see the
termination theorem).  The result is the accumulated overlap in seconds. -/
def awtsLoopF (end_dt : PyDateTime) : Nat → PyDateTime → Option Int
  | 0, _ => none
  | fuel + 1, cur =>
    if pyDate cur ≤ pyDate end_dt then
      if is_working_day cur then
        let day_start := replaceHour cur WORK_START_HOUR
        let day_end := replaceHour cur WORK_END_HOUR
        let seg_start := pyMax cur day_start
        let seg_end := pyMin end_dt day_end
        let seg : Int :=
          if absInstant seg_start < absInstant seg_end then
            absInstant seg_end - absInstant seg_start
          else 0
        (awtsLoopF end_dt fuel (nextDay8 cur)).map (fun rest => seg + rest)
      else
        awtsLoopF end_dt fuel (nextDay8 cur)
    else some 0

/-- Fuel sufficient for the day loop: one unit per calendar day from the
cursor's date to the end date inclusive, plus one for the final check. -/
def awtsFuel (start_dt end_dt : PyDateTime) : Nat :=
  pyDate end_dt + 1 - pyDate start_dt + 1

/-- Source `add_working_time_segment`: overlap of `[start_dt, end_dt]` with the
working windows (Mon-Fri, 08:00-17:00 on the wall clock of the running cursor),
in seconds (the Python function returns a `timedelta`). -/
def add_working_time_segment (start_dt end_dt : PyDateTime) : Int :=
  if absInstant end_dt ≤ absInstant start_dt then 0
  else (awtsLoopF end_dt (awtsFuel start_dt end_dt) start_dt).getD 0

/-- Source `parse_iso_to_msk` applied to an instant given as UTC seconds:
`datetime.fromisoformat(...).astimezone(MOSCOW_TZ)` yields the Moscow wall
clock with offset UTC+03:00 (modern instants). -/
def parse_iso_to_msk (utc : Nat) : PyDateTime := ⟨utc + 10800, MSK_OFFSET⟩

/-- One raw history record as consumed by
`calculate_in_progress_time_for_period`: the `date` field is modelled as the
already-parsed UTC instant (`none` when the field is missing or falsy; a string
that fails to parse is likewise dropped by the `except` branch), and
`statusName` is `entry["data"]["newValue"]["statusName"]` with `none` for any
missing link in that chain. -/
structure RawEntry where
  date : Option Nat
  statusName : Option String

/-- A `(timestamp, normalized lowercase status)` pair of the event list. -/
structure StatusEvent where
  ts : PyDateTime
  status : String
deriving DecidableEq, Repr

/-- Event-list construction loop of `calculate_in_progress_time_for_period`:
`new_status = (entry..statusName or "").lower()`, skip when `date` is falsy or
`new_status` is empty, else append `(parse_iso_to_msk(date), new_status)`. -/
def buildEvents (history : List RawEntry) : List StatusEvent :=
  history.filterMap fun e =>
    let new_status := pyLower (e.statusName.getD "")
    match e.date with
    | none => none
    | some d => if new_status = "" then none else some ⟨parse_iso_to_msk d, new_status⟩

/-- Stable insertion by timestamp: an element is placed before the first
existing element with a timestamp greater than or equal to its own, so elements
with equal timestamps keep their original relative order, as Python's stable
`events.sort(key=lambda x: x[0])` does. -/
def insertEvent (x : StatusEvent) : List StatusEvent → List StatusEvent
  | [] => [x]
  | y :: ys =>
    if absInstant x.ts ≤ absInstant y.ts then x :: y :: ys else y :: insertEvent x ys

/-- Stable sort by timestamp, modelling `events.sort(key=lambda x: x[0])`. -/
def sortEvents : List StatusEvent → List StatusEvent
  | [] => []
  | x :: xs => insertEvent x (sortEvents xs)

/-- Initial-state scan of `calculate_in_progress_time_for_period`: starting
from `in_target_status = False`, walk the sorted events; while `dt <=
period_start` set the state to `status == target`, and break at the first later
event. -/
def initialInTarget (target : String) (period_start : PyDateTime) :
    List StatusEvent → Bool → Bool
  | [], acc => acc
  | e :: es, acc =>
    if absInstant e.ts ≤ absInstant period_start then
      initialInTarget target period_start es (e.status == target)
    else acc

/-- The main event walk of `calculate_in_progress_time_for_period`: skip events
at or before `period_start`; at the first event past `period_end` close the
open segment (if in the target status) and stop; otherwise close the open
segment, update the state and the boundary; the empty case is the `for ... else`
clause, closing the open segment when `last_ts < period_end` and the state is
the target.  Accumulates seconds. -/
def walkEvents (period_start period_end : PyDateTime) (target : String) :
    List StatusEvent → Bool → PyDateTime → Int → Int
  | [], in_target, last_ts, total =>
    if absInstant last_ts < absInstant period_end ∧ in_target then
      total + add_working_time_segment last_ts period_end
    else total
  | e :: es, in_target, last_ts, total =>
    if absInstant e.ts ≤ absInstant period_start then
      walkEvents period_start period_end target es in_target last_ts total
    else if absInstant period_end < absInstant e.ts then
      if in_target then total + add_working_time_segment last_ts period_end else total
    else
      walkEvents period_start period_end target es (e.status == target) e.ts
        (if in_target then total + add_working_time_segment last_ts e.ts else total)

/-- Period start as built by the source:
`datetime.strptime(s, "%Y-%m-%d").replace(tzinfo=MOSCOW_TZ, hour=0, minute=0,
second=0, microsecond=0)` — wall-clock midnight of the start date with pytz's
LMT offset for Europe/Moscow attached. -/
def period_start_of (d : Nat) : PyDateTime := ⟨d * 86400, PYTZ_LMT_OFFSET⟩

/-- Period end as built by the source: wall-clock 23:59:59 of the end date with
pytz's LMT offset attached. -/
def period_end_of (d : Nat) : PyDateTime := ⟨d * 86400 + 86399, PYTZ_LMT_OFFSET⟩

/-- Source `calculate_in_progress_time_for_period`, with the period given as
wall-clock day indices (the `"%Y-%m-%d"` string parse itself is not modelled).
Returns minutes (a float in the source, a rational here):
`total_td.total_seconds() / 60`. -/
def calculate_in_progress_time_for_period (history : List RawEntry)
    (startDay endDay : Nat) (status_name : String) : ℚ :=
  let target := pyLower status_name
  let period_start := period_start_of startDay
  let period_end := period_end_of endDay
  match buildEvents history with
  | [] => 0
  | e :: es =>
    let sorted := sortEvents (e :: es)
    let in_target := initialInTarget target period_start sorted false
    ((walkEvents period_start period_end target sorted in_target period_start 0 : Int) : ℚ) / 60

/-- Modelled from the spec (for comparison with `period_start_of`): the window
start the spec describes — the absolute instant of 00:00:00 of the start date
in the calendar's reference timezone Europe/Moscow (UTC+03:00), the same
timezone in which event timestamps are interpreted. -/
def spec_period_start (d : Nat) : PyDateTime := ⟨d * 86400, MSK_OFFSET⟩

/-- Modelled from the spec (for comparison with `period_end_of`): the absolute
instant of 23:59:59 of the end date in Europe/Moscow (UTC+03:00). -/
def spec_period_end (d : Nat) : PyDateTime := ⟨d * 86400 + 86399, MSK_OFFSET⟩

/-- One row `[task_key, task_name, hours]` of the grouped report data. -/
structure ReportTask where
  key : String
  name : String
  hours : ℚ
deriving DecidableEq, Repr

/-- Python string comparison: lexicographic on code points.  (Lean's `≤` on
`String` is the same order, but its iterator-based implementation does not
reduce; this character-list version computes.) -/
def charListLe : List Char → List Char → Bool
  | [], _ => true
  | _ :: _, [] => false
  | a :: as, b :: bs => if a < b then true else if b < a then false else charListLe as bs

/-- Python `a <= b` on strings. -/
def pyStrLe (a b : String) : Bool := charListLe a.data b.data

/-- Stable insertion by task key, for `sorted(tasks, key=lambda x: x[0])`. -/
def insertTask (x : ReportTask) : List ReportTask → List ReportTask
  | [] => [x]
  | y :: ys => if pyStrLe x.key y.key then x :: y :: ys else y :: insertTask x ys

/-- Stable sort by task key. -/
def sortTasks : List ReportTask → List ReportTask
  | [] => []
  | x :: xs => insertTask x (sortTasks xs)

/-- Rows the `save_to_excel_multi` loop keeps for one assignee:
`tasks = [t for t in tasks if t[2] > 0]` then
`tasks = sorted(tasks, key=lambda x: x[0])`. -/
def keptTasks (tasks : List ReportTask) : List ReportTask :=
  sortTasks (tasks.filter fun t => decide (0 < t.hours))

/-- The displayed hours of one row: `task[2] if task[2] >= 1 else 1`. -/
def displayHoursOf (t : ReportTask) : ℚ := if 1 ≤ t.hours then t.hours else 1

/-- `display_hours_list = [task[2] if task[2] >= 1 else 1 for task in tasks]`. -/
def display_hours_list (tasks : List ReportTask) : List ℚ :=
  tasks.map displayHoursOf

/-- `total_hours = sum(display_hours_list)`. -/
def total_hours (tasks : List ReportTask) : ℚ := (display_hours_list tasks).sum

/-- Python `round` on an exact rational: ties to even (float representation
artifacts are not modelled). -/
def roundHalfEven (x : ℚ) : Int :=
  let f := Int.floor x
  if x - f < 1 / 2 then f
  else if 1 / 2 < x - f then f + 1
  else if f % 2 = 0 then f else f + 1

/-- Python `round(x, 1)`. -/
def pyRound1 (x : ℚ) : ℚ := (roundHalfEven (x * 10) : ℚ) / 10

/-- The grouped structure `grouped_by_period[(start, end)][display_name]` of
`process_data`, modelled as a total function (each period maps to a
`defaultdict(list)`). -/
def Grouped : Type := (String × String) → String → List ReportTask

/-- `grouped_by_period[(period.start, period.end)][display_name].append([key,
task_name, hours])`. -/
def appendRow (g : Grouped) (pk : String × String) (dn : String) (row : ReportTask) : Grouped :=
  fun pk2 dn2 => if pk2 = pk ∧ dn2 = dn then g pk dn ++ [row] else g pk2 dn2

/-- One `(item, period)` step of the `process_data` aggregation loop:
`hours = round(mins / 60, 1)`; if `hours > 0` append `[key, task_name, hours]`
to the group, else leave the structure unchanged. -/
def processPair (g : Grouped) (pk : String × String)
    (display_name task_key task_name : String) (mins : ℚ) : Grouped :=
  let hours := pyRound1 (mins / 60)
  if 0 < hours then appendRow g pk display_name ⟨task_key, task_name, hours⟩ else g

/-! Helper lemmas shared by the claim theorems. -/

/-- The day cursor `(cur + timedelta(days=1)).replace(hour=8, ...)` lands on
the next calendar day. -/
lemma nextDay8_pyDate (cur : PyDateTime) : pyDate (nextDay8 cur) = pyDate cur + 1 := by
  simp only [nextDay8, pyDate, WORK_START_HOUR]
  omega

/-- The day cursor lands at 08:00 wall clock. -/
lemma nextDay8_wallHour (cur : PyDateTime) :
    (nextDay8 cur).wall % 86400 = WORK_START_HOUR * 3600 := by
  simp only [nextDay8, WORK_START_HOUR]
  omega

/-- With more fuel than calendar days between the cursor and the end date, the
day loop returns a value. -/
lemma awtsLoopF_isSome (end_dt : PyDateTime) :
    ∀ (fuel : Nat) (cur : PyDateTime), pyDate end_dt + 1 - pyDate cur < fuel →
      (awtsLoopF end_dt fuel cur).isSome = true := by
  intro fuel
  induction fuel with
  | zero => intro cur h; omega
  | succ n ih =>
    intro cur h
    rw [awtsLoopF]
    by_cases hle : pyDate cur ≤ pyDate end_dt
    · have hnext : pyDate end_dt + 1 - pyDate (nextDay8 cur) < n := by
        rw [nextDay8_pyDate]; omega
      rw [if_pos hle]
      by_cases hw : is_working_day cur = true
      · rw [if_pos hw]; simpa using ih (nextDay8 cur) hnext
      · rw [if_neg hw]; exact ih (nextDay8 cur) hnext
    · rw [if_neg hle]; rfl

/-- The guard case of `add_working_time_segment`: `end_dt <= start_dt` gives a
zero timedelta. -/
lemma add_working_time_segment_of_le {a b : PyDateTime}
    (h : absInstant b ≤ absInstant a) : add_working_time_segment a b = 0 := by
  unfold add_working_time_segment
  exact if_pos h

/-- Unfolding of the accumulator when the built event list is nonempty. -/
lemma calc_eq_walk (history : List RawEntry) (startDay endDay : Nat)
    (status_name : String) (e : StatusEvent) (es : List StatusEvent)
    (hb : buildEvents history = e :: es) :
    calculate_in_progress_time_for_period history startDay endDay status_name =
      ((walkEvents (period_start_of startDay) (period_end_of endDay) (pyLower status_name)
          (sortEvents (e :: es))
          (initialInTarget (pyLower status_name) (period_start_of startDay)
            (sortEvents (e :: es)) false)
          (period_start_of startDay) 0 : Int) : ℚ) / 60 := by
  unfold calculate_in_progress_time_for_period
  rw [hb]

/-- When the period is inverted (`period_end` before `period_start` as
instants), the walk adds nothing: events at or before `period_start` are
skipped, and the first later event is also past `period_end`, closing a segment
of zero length. -/
lemma walkEvents_inverted {ps pe : PyDateTime} (tgt : String)
    (hinv : absInstant pe < absInstant ps) :
    ∀ (l : List StatusEvent) (inT : Bool) (tot : Int),
      walkEvents ps pe tgt l inT ps tot = tot := by
  intro l
  induction l with
  | nil =>
    intro inT tot
    rw [walkEvents]
    rw [if_neg]
    intro hc
    exact absurd hc.1 (by omega)
  | cons e es ih =>
    intro inT tot
    rw [walkEvents]
    by_cases hskip : absInstant e.ts ≤ absInstant ps
    · rw [if_pos hskip]; exact ih inT tot
    · rw [if_neg hskip]
      have hpast : absInstant pe < absInstant e.ts := by omega
      rw [if_pos hpast]
      have hz : add_working_time_segment ps pe = 0 :=
        add_working_time_segment_of_le (by omega)
      cases inT <;> simp [hz]

/-! Claim theorems C4, C5, C6, C10. -/

/-- Claim C10: the Work Calendar overlap loop terminates for every pair of
aware instants: each iteration advances the cursor to 08:00 of the next
calendar day, so with fuel exceeding the number of calendar days from the
cursor's date to the end date the fuelled loop always returns a value, and in
particular the fuel `awtsFuel` used by `add_working_time_segment` always
suffices. -/
theorem work_calendar_loop_terminates :
    (∀ cur : PyDateTime,
        pyDate (nextDay8 cur) = pyDate cur + 1 ∧
        (nextDay8 cur).wall % 86400 = WORK_START_HOUR * 3600)
    ∧ (∀ (end_dt cur : PyDateTime) (fuel : Nat),
        pyDate end_dt + 1 - pyDate cur < fuel →
        (awtsLoopF end_dt fuel cur).isSome = true)
    ∧ (∀ start_dt end_dt : PyDateTime,
        (awtsLoopF end_dt (awtsFuel start_dt end_dt) start_dt).isSome = true) := by
  refine ⟨fun cur => ⟨nextDay8_pyDate cur, nextDay8_wallHour cur⟩, ?_, ?_⟩
  · intro end_dt cur fuel h
    exact awtsLoopF_isSome end_dt fuel cur h
  · intro start_dt end_dt
    exact awtsLoopF_isSome end_dt _ start_dt (by unfold awtsFuel; omega)

/-- Witness for C10: the loop of the Friday-to-Monday span of the spec's
scenario returns a value within fuel 5. -/
theorem work_calendar_loop_terminates_witness :
    (awtsLoopF (period_end_of 7) 5 (parse_iso_to_msk 392400)).isSome = true :=
  work_calendar_loop_terminates.2.1 (period_end_of 7) (parse_iso_to_msk 392400) 5 (by decide)

/-- Claim C4 (code bug): the source intends both window bounds and event
timestamps in Moscow time, but builds the bounds with
`datetime.replace(tzinfo=MOSCOW_TZ, ...)`, which under pytz attaches the
Europe/Moscow base offset LMT = UTC+02:30 instead of the UTC+03:00 that
`astimezone` gives event timestamps; at the concrete start date of day index 0
the code's window start and end are each 1800 seconds later than the absolute
instants of 00:00:00 and 23:59:59 Moscow time that the spec states. -/
theorem period_bounds_use_pytz_lmt_not_msk :
    (period_start_of 0).offset = PYTZ_LMT_OFFSET ∧
    (parse_iso_to_msk 0).offset = MSK_OFFSET ∧
    PYTZ_LMT_OFFSET ≠ MSK_OFFSET ∧
    absInstant (period_start_of 0) - absInstant (spec_period_start 0) = 1800 ∧
    absInstant (period_end_of 0) - absInstant (spec_period_end 0) = 1800 := by
  refine ⟨rfl, rfl, by decide, by decide, by decide⟩

/-- Claim C5: when the list of valid `(timestamp, status)` events built from
the history is empty, the Accumulator returns 0 minutes, for every period and
every target status. -/
theorem accumulator_zero_on_empty_events (history : List RawEntry)
    (startDay endDay : Nat) (status_name : String)
    (h : buildEvents history = []) :
    calculate_in_progress_time_for_period history startDay endDay status_name = 0 := by
  unfold calculate_in_progress_time_for_period
  rw [h]

/-- Witness for C5: a history whose entries all lack a date, lack a status, or
carry an empty status builds no events, and the Accumulator returns 0. -/
theorem accumulator_zero_on_empty_events_witness :
    calculate_in_progress_time_for_period
      [⟨none, some "In Progress"⟩, ⟨some 5, none⟩, ⟨some 5, some ""⟩] 0 7 "in progress" = 0 :=
  accumulator_zero_on_empty_events _ 0 7 "in progress" (by decide)

/-- Claim C6: when the period's end date precedes its start date the
Accumulator raises no error and returns zero, and the Work Calendar overlap
function returns zero whenever its end instant is at or before its start
instant. -/
theorem inverted_period_yields_zero :
    (∀ (history : List RawEntry) (startDay endDay : Nat) (status_name : String),
        endDay < startDay →
        calculate_in_progress_time_for_period history startDay endDay status_name = 0)
    ∧ (∀ a b : PyDateTime, absInstant b ≤ absInstant a →
        add_working_time_segment a b = 0) := by
  constructor
  · intro history startDay endDay status_name hlt
    cases hb : buildEvents history with
    | nil =>
      unfold calculate_in_progress_time_for_period
      rw [hb]
    | cons e es =>
      rw [calc_eq_walk history startDay endDay status_name e es hb]
      have hinv : absInstant (period_end_of endDay) < absInstant (period_start_of startDay) := by
        simp only [absInstant, period_end_of, period_start_of, PYTZ_LMT_OFFSET]
        omega
      rw [walkEvents_inverted (pyLower status_name) hinv]
      norm_num
  · intro a b h
    exact add_working_time_segment_of_le h

/-- Witness for C6: a period whose end date 3 precedes its start date 5 yields
zero minutes on a nonempty history, and the overlap of a backwards span is
zero. -/
theorem inverted_period_yields_zero_witness :
    calculate_in_progress_time_for_period [⟨some 392400, some "in progress"⟩] 5 3 "in progress" = 0
    ∧ add_working_time_segment (parse_iso_to_msk 392400) (parse_iso_to_msk 100) = 0 :=
  ⟨inverted_period_yields_zero.1 _ 5 3 "in progress" (by decide),
   inverted_period_yields_zero.2 _ _ (by decide)⟩

/-- When no event lies at or before `period_start`, the initial-state scan
returns its accumulator unchanged (it breaks at the first event). -/
lemma initialInTarget_stop {tgt : String} {ps : PyDateTime}
    {l : List StatusEvent} (h : ∀ e ∈ l, ¬ absInstant e.ts ≤ absInstant ps)
    (acc : Bool) : initialInTarget tgt ps l acc = acc := by
  cases l with
  | nil => rfl
  | cons e es =>
    rw [initialInTarget, if_neg (h e (by simp))]

/-- The initial-state scan over a timestamp-sorted list computes the status of
the last event at or before `period_start`, or returns its accumulator when
there is none. -/
lemma initialInTarget_pairwise (tgt : String) (ps : PyDateTime) :
    ∀ (l : List StatusEvent),
      l.Pairwise (fun a b => absInstant a.ts ≤ absInstant b.ts) →
      ∀ acc : Bool,
        initialInTarget tgt ps l acc =
          match (l.filter fun e => decide (absInstant e.ts ≤ absInstant ps)).getLast? with
          | some e => e.status == tgt
          | none => acc := by
  intro l
  induction l with
  | nil => intro _ acc; rfl
  | cons e es ih =>
    intro hp acc
    have hhead := (List.pairwise_cons.mp hp).1
    have htail := (List.pairwise_cons.mp hp).2
    by_cases he : absInstant e.ts ≤ absInstant ps
    · rw [initialInTarget, if_pos he, ih htail (e.status == tgt)]
      rw [List.filter_cons_of_pos (by simpa using he)]
      cases hfe : (es.filter fun x => decide (absInstant x.ts ≤ absInstant ps)).getLast? with
      | none =>
        rw [List.getLast?_eq_none_iff.mp hfe]
        rfl
      | some x =>
        cases hne : es.filter fun x => decide (absInstant x.ts ≤ absInstant ps) with
        | nil => rw [hne] at hfe; simp at hfe
        | cons y ys =>
          rw [hne] at hfe
          rw [List.getLast?_cons_cons, hfe]
    · rw [initialInTarget, if_neg he]
      have hnil : (e :: es).filter (fun x => decide (absInstant x.ts ≤ absInstant ps)) = [] := by
        rw [List.filter_eq_nil_iff]
        intro a ha
        simp only [decide_eq_true_eq]
        rcases List.mem_cons.mp ha with rfl | ha2
        · exact he
        · have := hhead a ha2
          omega
      rw [hnil]
      rfl

/-- Claim C3: for every timestamp-sorted event list, the state in effect at
`period.start` compares the status of the most recent event at or before
`period.start` (the last such event in the sorted order) with the target; when
no event lies at or before `period.start`, the initial state is false — the
target status is never assumed by default. -/
theorem initial_state_is_last_event_at_or_before_start
    (target : String) (period_start : PyDateTime) (evs : List StatusEvent)
    (hs : evs.Pairwise fun a b => absInstant a.ts ≤ absInstant b.ts) :
    initialInTarget target period_start evs false =
      match (evs.filter fun e => decide (absInstant e.ts ≤ absInstant period_start)).getLast? with
      | some e => e.status == target
      | none => false :=
  initialInTarget_pairwise target period_start evs hs false

/-- Witness for C3: two sorted events, one at or before the period start whose
status is the target, one after it. -/
theorem initial_state_is_last_event_at_or_before_start_witness :
    initialInTarget "in progress" ⟨150, 0⟩
      [⟨⟨100, 0⟩, "in progress"⟩, ⟨⟨200, 0⟩, "done"⟩] false =
      match (([⟨⟨100, 0⟩, "in progress"⟩, ⟨⟨200, 0⟩, "done"⟩] : List StatusEvent).filter
          fun e => decide (absInstant e.ts ≤ absInstant ⟨150, 0⟩)).getLast? with
      | some e => e.status == "in progress"
      | none => false :=
  initial_state_is_last_event_at_or_before_start "in progress" ⟨150, 0⟩ _ (by decide)

/-- Filtering by one timestamp commutes with stable insertion: an inserted
element with that timestamp goes in front of the equal-timestamp elements
already present (they all have greater-or-equal keys), and an element with
another timestamp leaves them untouched. -/
lemma filter_insertEvent (t : Int) (x : StatusEvent) :
    ∀ l : List StatusEvent,
      (insertEvent x l).filter (fun e => decide (absInstant e.ts = t)) =
        if absInstant x.ts = t then
          x :: l.filter (fun e => decide (absInstant e.ts = t))
        else l.filter (fun e => decide (absInstant e.ts = t)) := by
  intro l
  induction l with
  | nil =>
    by_cases hx : absInstant x.ts = t <;> simp [insertEvent, hx]
  | cons y ys ih =>
    rw [insertEvent]
    by_cases hle : absInstant x.ts ≤ absInstant y.ts
    · rw [if_pos hle]
      by_cases hx : absInstant x.ts = t <;> simp [List.filter_cons, hx]
    · rw [if_neg hle, List.filter_cons, ih]
      by_cases hy : absInstant y.ts = t
      · have hx : ¬ absInstant x.ts = t := by omega
        simp [List.filter_cons, hx, hy]
      · by_cases hx : absInstant x.ts = t <;> simp [List.filter_cons, hx, hy]

/-- Stability of the timestamp sort: for every instant, the events at that
instant appear in the sorted list in their original relative order. -/
lemma sortEvents_filter_eq (t : Int) :
    ∀ evs : List StatusEvent,
      (sortEvents evs).filter (fun e => decide (absInstant e.ts = t)) =
        evs.filter (fun e => decide (absInstant e.ts = t)) := by
  intro evs
  induction evs with
  | nil => rfl
  | cons x xs ih =>
    rw [sortEvents, filter_insertEvent, ih]
    by_cases hx : absInstant x.ts = t <;> simp [List.filter_cons, hx]

/-- Walking a block of events that share one timestamp inside the window: the
first event of the block closes the open segment, every later event of the
block closes a zero-length segment, and the last event of the block determines
the state and the boundary in effect going forward. -/
lemma walkEvents_ties (ps pe : PyDateTime) (tgt : String) :
    ∀ (ties : List StatusEvent) (t0 : StatusEvent) (rest : List StatusEvent)
      (inT : Bool) (lastTs : PyDateTime) (tot : Int),
      (∀ e ∈ t0 :: ties, absInstant e.ts = absInstant t0.ts) →
      absInstant ps < absInstant t0.ts →
      absInstant t0.ts ≤ absInstant pe →
      walkEvents ps pe tgt (t0 :: (ties ++ rest)) inT lastTs tot =
        walkEvents ps pe tgt rest ((ties.getLastD t0).status == tgt)
          (ties.getLastD t0).ts
          (tot + if inT then add_working_time_segment lastTs t0.ts else 0) := by
  intro ties
  induction ties with
  | nil =>
    intro t0 rest inT lastTs tot hall hgt hle
    simp only [List.nil_append]
    rw [walkEvents, if_neg (by omega), if_neg (by omega)]
    have hacc : (if inT then tot + add_working_time_segment lastTs t0.ts else tot) =
        tot + if inT then add_working_time_segment lastTs t0.ts else 0 := by
      cases inT <;> simp
    rw [hacc]
    rfl
  | cons t1 ties2 ih =>
    intro t0 rest inT lastTs tot hall hgt hle
    have ht1 : absInstant t1.ts = absInstant t0.ts := hall t1 (by simp)
    simp only [List.cons_append]
    rw [walkEvents, if_neg (by omega), if_neg (by omega)]
    have hall1 : ∀ e ∈ t1 :: ties2, absInstant e.ts = absInstant t1.ts := by
      intro e he
      have he0 : absInstant e.ts = absInstant t0.ts := hall e (List.mem_cons_of_mem t0 he)
      omega
    rw [ih t1 rest (t0.status == tgt) t0.ts
        (if inT then tot + add_working_time_segment lastTs t0.ts else tot)
        hall1 (by omega) (by omega)]
    have hzero : add_working_time_segment t0.ts t1.ts = 0 :=
      add_working_time_segment_of_le (by omega)
    rw [hzero, List.getLastD_cons]
    have harr : ((if inT then tot + add_working_time_segment lastTs t0.ts else tot) +
          if t0.status == tgt then (0 : Int) else 0) =
        tot + if inT then add_working_time_segment lastTs t0.ts else 0 := by
      cases inT <;> simp
    rw [harr]

/-- Claim C7: the timestamp sort is stable — for every event list and every
instant, the events at that instant appear in the sorted list in their original
relative order — and when the walk reaches a block of same-timestamp events
inside the window it processes them in that order, the status of the last event
of the block determining the state (and the boundary) in effect going forward
from that instant. -/
theorem sort_stable_and_last_tie_sets_state :
    (∀ (evs : List StatusEvent) (t : Int),
        (sortEvents evs).filter (fun e => decide (absInstant e.ts = t)) =
          evs.filter (fun e => decide (absInstant e.ts = t)))
    ∧ (∀ (ps pe : PyDateTime) (tgt : String) (t0 : StatusEvent)
        (ties rest : List StatusEvent) (inT : Bool) (lastTs : PyDateTime) (tot : Int),
        (∀ e ∈ t0 :: ties, absInstant e.ts = absInstant t0.ts) →
        absInstant ps < absInstant t0.ts →
        absInstant t0.ts ≤ absInstant pe →
        walkEvents ps pe tgt ((t0 :: ties) ++ rest) inT lastTs tot =
          walkEvents ps pe tgt rest ((ties.getLastD t0).status == tgt)
            (ties.getLastD t0).ts
            (tot + if inT then add_working_time_segment lastTs t0.ts else 0)) := by
  constructor
  · intro evs t
    exact sortEvents_filter_eq t evs
  · intro ps pe tgt t0 ties rest inT lastTs tot hall hgt hle
    simp only [List.cons_append]
    exact walkEvents_ties ps pe tgt ties t0 rest inT lastTs tot hall hgt hle

/-- Witness for C7: two events at one instant keep their relative order through
the sort, and the walk over such a block takes the second event's status as the
state going forward. -/
theorem sort_stable_and_last_tie_sets_state_witness :
    ((sortEvents [⟨⟨100, 0⟩, "b"⟩, ⟨⟨100, 0⟩, "a"⟩, ⟨⟨50, 0⟩, "c"⟩]).filter
        (fun e => decide (absInstant e.ts = 100)) =
      ([⟨⟨100, 0⟩, "b"⟩, ⟨⟨100, 0⟩, "a"⟩, ⟨⟨50, 0⟩, "c"⟩] : List StatusEvent).filter
        (fun e => decide (absInstant e.ts = 100)))
    ∧ walkEvents ⟨0, 0⟩ ⟨86399, 0⟩ "in progress"
        ((⟨⟨40000, 0⟩, "todo"⟩ :: [⟨⟨40000, 0⟩, "in progress"⟩]) ++ []) false ⟨0, 0⟩ 0 =
      walkEvents ⟨0, 0⟩ ⟨86399, 0⟩ "in progress" []
        ((([⟨⟨40000, 0⟩, "in progress"⟩] : List StatusEvent).getLastD
            ⟨⟨40000, 0⟩, "todo"⟩).status == "in progress")
        (([⟨⟨40000, 0⟩, "in progress"⟩] : List StatusEvent).getLastD ⟨⟨40000, 0⟩, "todo"⟩).ts
        (0 + if false then
            add_working_time_segment ⟨0, 0⟩ (⟨⟨40000, 0⟩, "todo"⟩ : StatusEvent).ts
          else 0) :=
  ⟨sort_stable_and_last_tie_sets_state.1 _ 100,
   sort_stable_and_last_tie_sets_state.2 ⟨0, 0⟩ ⟨86399, 0⟩ "in progress"
     ⟨⟨40000, 0⟩, "todo"⟩ [⟨⟨40000, 0⟩, "in progress"⟩] [] false ⟨0, 0⟩ 0
     (by decide) (by decide) (by decide)⟩

/-- Events at or before `period_start` are skipped by the walk without touching
the state, the boundary, or the total. -/
lemma walkEvents_skip {ps pe : PyDateTime} {tgt : String} :
    ∀ (pre l : List StatusEvent) (inT : Bool) (lastTs : PyDateTime) (tot : Int),
      (∀ e ∈ pre, absInstant e.ts ≤ absInstant ps) →
      walkEvents ps pe tgt (pre ++ l) inT lastTs tot =
        walkEvents ps pe tgt l inT lastTs tot := by
  intro pre
  induction pre with
  | nil => intro l inT lastTs tot _; rfl
  | cons e es ih =>
    intro l inT lastTs tot h
    simp only [List.cons_append]
    rw [walkEvents, if_pos (h e (by simp))]
    exact ih l inT lastTs tot (fun x hx => h x (List.mem_cons_of_mem e hx))

/-- When every remaining event lies past `period_end` and the state is the
target, the walk closes the window with one final clipped segment (also when
the window is degenerate, in which case that segment is zero). -/
lemma walkEvents_after_end {ps pe : PyDateTime} {tgt : String}
    {l : List StatusEvent} (hps : absInstant ps ≤ absInstant pe)
    (h : ∀ e ∈ l, absInstant pe < absInstant e.ts)
    (lastTs : PyDateTime) (tot : Int) :
    walkEvents ps pe tgt l true lastTs tot = tot + add_working_time_segment lastTs pe := by
  cases l with
  | nil =>
    rw [walkEvents]
    by_cases hlt : absInstant lastTs < absInstant pe
    · rw [if_pos ⟨hlt, rfl⟩]
    · rw [if_neg (fun hc => hlt hc.1)]
      rw [add_working_time_segment_of_le (by omega), add_zero]
  | cons e es =>
    have he := h e (by simp)
    rw [walkEvents, if_neg (by omega), if_pos he, if_pos rfl]

/-- The initial-state scan over a list that splits into events at or before
`period_start` followed by events after it yields the status of the last
early event, compared with the target. -/
lemma initialInTarget_append {tgt : String} {ps : PyDateTime} :
    ∀ (pre : List StatusEvent) (plast : StatusEvent) (suf : List StatusEvent) (acc : Bool),
      (∀ e ∈ pre, absInstant e.ts ≤ absInstant ps) →
      pre.getLast? = some plast →
      (∀ e ∈ suf, ¬ absInstant e.ts ≤ absInstant ps) →
      initialInTarget tgt ps (pre ++ suf) acc = (plast.status == tgt) := by
  intro pre
  induction pre with
  | nil => intro plast suf acc _ hlast _; simp at hlast
  | cons e es ih =>
    intro plast suf acc hpre hlast hsuf
    simp only [List.cons_append]
    rw [initialInTarget, if_pos (hpre e (by simp))]
    cases es with
    | nil =>
      simp only [List.getLast?_singleton, Option.some.injEq] at hlast
      subst hlast
      simp only [List.nil_append]
      exact initialInTarget_stop hsuf _
    | cons f fs =>
      rw [List.getLast?_cons_cons] at hlast
      exact ih plast suf (e.status == tgt)
        (fun x hx => hpre x (List.mem_cons_of_mem e hx)) hlast hsuf

/-- Claim C1: whenever the sorted event list splits into a nonempty block of
events at or before `period.start` whose last element carries the target
status (statuses are compared after lowercasing both sides) and a block of
events strictly after `period.end` — i.e. the item is in the target status
throughout the window — the Accumulator returns exactly the calendar-clipped
duration of the whole window `[period.start, period.end]` in minutes. -/
theorem accumulator_full_window_when_in_target_throughout
    (history : List RawEntry) (startDay endDay : Nat) (status_name : String)
    (pre suf : List StatusEvent) (plast : StatusEvent)
    (hsplit : sortEvents (buildEvents history) = pre ++ suf)
    (hpre : ∀ e ∈ pre, absInstant e.ts ≤ absInstant (period_start_of startDay))
    (hlast : pre.getLast? = some plast)
    (htarget : plast.status = pyLower status_name)
    (hsuf : ∀ e ∈ suf, absInstant (period_end_of endDay) < absInstant e.ts) :
    calculate_in_progress_time_for_period history startDay endDay status_name =
      ((add_working_time_segment (period_start_of startDay) (period_end_of endDay) : Int) : ℚ)
        / 60 := by
  cases hb : buildEvents history with
  | nil =>
    rw [hb] at hsplit
    have hpn : pre = [] := (List.append_eq_nil.mp hsplit.symm).1
    rw [hpn] at hlast
    simp at hlast
  | cons e es =>
    rw [hb] at hsplit
    rw [calc_eq_walk history startDay endDay status_name e es hb, hsplit]
    by_cases hord :
        absInstant (period_start_of startDay) ≤ absInstant (period_end_of endDay)
    · have hsuf2 : ∀ x ∈ suf, ¬ absInstant x.ts ≤ absInstant (period_start_of startDay) := by
        intro x hx
        have := hsuf x hx
        omega
      rw [initialInTarget_append pre plast suf false hpre hlast hsuf2, htarget,
        beq_self_eq_true]
      rw [walkEvents_skip pre suf true (period_start_of startDay) 0 hpre]
      rw [walkEvents_after_end hord hsuf (period_start_of startDay) 0, zero_add]
    · rw [walkEvents_inverted (pyLower status_name) (by omega) (pre ++ suf) _ 0]
      rw [add_working_time_segment_of_le (by omega)]

/-- Witness for C1: one "In Progress" event before the one-day window of day 1
and one "done" event after it; the target status is given in capitals to
exercise the case-insensitive comparison. -/
theorem accumulator_full_window_when_in_target_throughout_witness :
    calculate_in_progress_time_for_period
        [⟨some 0, some "In Progress"⟩, ⟨some 259200, some "done"⟩] 1 1 "IN PROGRESS" =
      ((add_working_time_segment (period_start_of 1) (period_end_of 1) : Int) : ℚ) / 60 :=
  accumulator_full_window_when_in_target_throughout _ 1 1 "IN PROGRESS"
    [⟨⟨10800, 10800⟩, "in progress"⟩] [⟨⟨270000, 10800⟩, "done"⟩]
    ⟨⟨10800, 10800⟩, "in progress"⟩
    (by decide) (by decide) (by decide) (by decide) (by decide)

/-- Bridging lemma for concrete runs: once the built event list and the value
of the walk are known, the Accumulator's result is that value over 60. -/
lemma calc_eq_of_walk (history : List RawEntry) (startDay endDay : Nat)
    (status_name : String) (e : StatusEvent) (es : List StatusEvent)
    (hb : buildEvents history = e :: es) (n : Int)
    (hw : walkEvents (period_start_of startDay) (period_end_of endDay)
        (pyLower status_name) (sortEvents (e :: es))
        (initialInTarget (pyLower status_name) (period_start_of startDay)
          (sortEvents (e :: es)) false)
        (period_start_of startDay) 0 = n) :
    calculate_in_progress_time_for_period history startDay endDay status_name =
      (n : ℚ) / 60 := by
  rw [calc_eq_walk history startDay endDay status_name e es hb, hw]

/-- Claim C2: with the single event "in progress" at Friday 16:00 Moscow time
(day 4 of the Monday-based epoch, instant 392400) and no later event, a period
ending the following Monday (day 7, whose end instant the code sets to
23:59:59) and starting at or before that Friday, the Accumulator returns 600
minutes: one hour from Friday 16:00-17:00 plus nine hours from Monday
08:00-17:00, Saturday and Sunday contributing nothing. -/
theorem accumulator_friday_monday_ten_hours (s : Nat) (hs : s ≤ 4) :
    calculate_in_progress_time_for_period
      [⟨some 392400, some "in progress"⟩] s 7 "in progress" = 600 := by
  interval_cases s <;>
    exact (calc_eq_of_walk _ _ 7 "in progress" ⟨⟨403200, 10800⟩, "in progress"⟩ []
      (by decide) 36000 (by decide)).trans (by norm_num)

/-- Witness for C2: the period starting on the Friday itself. -/
theorem accumulator_friday_monday_ten_hours_witness :
    calculate_in_progress_time_for_period
      [⟨some 392400, some "in progress"⟩] 4 7 "in progress" = 600 :=
  accumulator_friday_monday_ten_hours 4 (by decide)

/-- Membership after stable insertion comes from the inserted element or the
original list. -/
lemma mem_insertTask {a x : ReportTask} :
    ∀ {l : List ReportTask}, a ∈ insertTask x l → a = x ∨ a ∈ l := by
  intro l
  induction l with
  | nil =>
    intro h
    rw [insertTask] at h
    exact Or.inl (List.mem_singleton.mp h)
  | cons y ys ih =>
    intro h
    rw [insertTask] at h
    by_cases hle : pyStrLe x.key y.key
    · rw [if_pos hle] at h
      rcases List.mem_cons.mp h with h1 | h2
      · exact Or.inl h1
      · exact Or.inr h2
    · rw [if_neg hle] at h
      rcases List.mem_cons.mp h with h1 | h2
      · exact Or.inr (h1 ▸ List.mem_cons_self y ys)
      · rcases ih h2 with h3 | h4
        · exact Or.inl h3
        · exact Or.inr (List.mem_cons_of_mem y h4)

/-- The task sort produces no new elements. -/
lemma mem_sortTasks {a : ReportTask} :
    ∀ {l : List ReportTask}, a ∈ sortTasks l → a ∈ l := by
  intro l
  induction l with
  | nil => intro h; exact absurd h (by rw [sortTasks]; exact List.not_mem_nil a)
  | cons x xs ih =>
    intro h
    rw [sortTasks] at h
    rcases mem_insertTask h with h1 | h2
    · exact h1 ▸ List.mem_cons_self x xs
    · exact List.mem_cons_of_mem x (ih h2)

/-- The display correction `task[2] if task[2] >= 1 else 1`, read the way the
spec phrases it. -/
lemma displayHoursOf_eq (r : ReportTask) :
    displayHoursOf r = if r.hours < 1 then 1 else r.hours := by
  unfold displayHoursOf
  by_cases h : 1 ≤ r.hours
  · rw [if_pos h, if_neg (not_lt.mpr h)]
  · rw [if_neg h, if_pos (not_le.mp h)]

/-- Claim C8: every row an assignee keeps after filtering has positive hours;
a kept row with hours below 1 is displayed as exactly 1, a kept row with hours
at least 1 is displayed with its value unchanged, and the summed
`total_hours` is exactly the sum of these adjusted values (so a sub-hour row
contributes exactly 1 to the total). -/
theorem min_display_rule (tasks : List ReportTask) (t : ReportTask)
    (ht : t ∈ keptTasks tasks) :
    0 < t.hours
    ∧ (t.hours < 1 → displayHoursOf t = 1)
    ∧ (1 ≤ t.hours → displayHoursOf t = t.hours)
    ∧ total_hours (keptTasks tasks) =
        ((keptTasks tasks).map fun r => if r.hours < 1 then 1 else r.hours).sum := by
  refine ⟨?_, ?_, ?_, ?_⟩
  · unfold keptTasks at ht
    have h1 := mem_sortTasks ht
    exact of_decide_eq_true (List.mem_filter.mp h1).2
  · intro h
    unfold displayHoursOf
    rw [if_neg (not_le.mpr h)]
  · intro h
    unfold displayHoursOf
    rw [if_pos h]
  · have hfun : displayHoursOf = fun r => if r.hours < 1 then 1 else r.hours :=
      funext displayHoursOf_eq
    simp only [total_hours, display_hours_list, hfun]

/-- Witness for C8: a 0.4-hour row displays as 1, a 1.4-hour row keeps its
value, and the assignee's total sums the adjusted values. -/
theorem min_display_rule_witness :
    ((⟨"A", "short", 2/5⟩ : ReportTask).hours < 1 → displayHoursOf ⟨"A", "short", 2/5⟩ = 1)
    ∧ (1 ≤ (⟨"B", "long", 7/5⟩ : ReportTask).hours →
        displayHoursOf ⟨"B", "long", 7/5⟩ = (⟨"B", "long", 7/5⟩ : ReportTask).hours)
    ∧ total_hours (keptTasks [⟨"B", "long", 7/5⟩, ⟨"A", "short", 2/5⟩, ⟨"C", "zero", 0⟩]) =
        ((keptTasks [⟨"B", "long", 7/5⟩, ⟨"A", "short", 2/5⟩, ⟨"C", "zero", 0⟩]).map
          fun r => if r.hours < 1 then 1 else r.hours).sum := by
  have hmemA : (⟨"A", "short", 2/5⟩ : ReportTask) ∈
      keptTasks [⟨"B", "long", 7/5⟩, ⟨"A", "short", 2/5⟩, ⟨"C", "zero", 0⟩] := by
    norm_num +decide [keptTasks, sortTasks, insertTask, List.filter, pyStrLe, charListLe]
  have hmemB : (⟨"B", "long", 7/5⟩ : ReportTask) ∈
      keptTasks [⟨"B", "long", 7/5⟩, ⟨"A", "short", 2/5⟩, ⟨"C", "zero", 0⟩] := by
    norm_num +decide [keptTasks, sortTasks, insertTask, List.filter, pyStrLe, charListLe]
  exact ⟨(min_display_rule _ _ hmemA).2.1,
    (min_display_rule _ _ hmemB).2.2.1,
    (min_display_rule _ _ hmemA).2.2.2⟩

/-- Claim C9: one aggregation step appends the row
`[task_key, task_name, hours]` to exactly the group of its period and assignee
display name precisely when `hours = round(mins / 60, 1)` is strictly
positive, where `mins` is the Accumulator's result; otherwise the grouped
structure is left unchanged at every key. -/
theorem row_appended_iff_rounded_hours_pos
    (g : Grouped) (pk : String × String) (dn task_key task_name : String)
    (history : List RawEntry) (startDay endDay : Nat) (status_name : String) :
    (processPair g pk dn task_key task_name
        (calculate_in_progress_time_for_period history startDay endDay status_name) pk dn =
      if 0 < pyRound1
          (calculate_in_progress_time_for_period history startDay endDay status_name / 60) then
        g pk dn ++ [⟨task_key, task_name,
          pyRound1
            (calculate_in_progress_time_for_period history startDay endDay status_name / 60)⟩]
      else g pk dn)
    ∧ ∀ (pk2 : String × String) (dn2 : String), ¬(pk2 = pk ∧ dn2 = dn) →
        processPair g pk dn task_key task_name
          (calculate_in_progress_time_for_period history startDay endDay status_name) pk2 dn2 =
          g pk2 dn2 := by
  constructor
  · unfold processPair
    by_cases h : 0 < pyRound1
        (calculate_in_progress_time_for_period history startDay endDay status_name / 60)
    · rw [if_pos h, if_pos h]
      unfold appendRow
      rw [if_pos ⟨rfl, rfl⟩]
    · rw [if_neg h, if_neg h]
  · intro pk2 dn2 hne
    unfold processPair
    by_cases h : 0 < pyRound1
        (calculate_in_progress_time_for_period history startDay endDay status_name / 60)
    · rw [if_pos h]
      unfold appendRow
      rw [if_neg hne]
    · rw [if_neg h]

/-- Witness for C9: with an empty history the rounded hours are zero, so the
row list of the addressed group and of any other group stays empty. -/
theorem row_appended_iff_rounded_hours_pos_witness :
    (processPair (fun _ _ => []) ("2024-01-01", "2024-01-31") "Alice" "K-1" "Task"
        (calculate_in_progress_time_for_period [] 0 0 "in progress")
        ("2024-01-01", "2024-01-31") "Alice" =
      if 0 < pyRound1 (calculate_in_progress_time_for_period [] 0 0 "in progress" / 60) then
        [⟨"K-1", "Task", pyRound1 (calculate_in_progress_time_for_period [] 0 0 "in progress" / 60)⟩]
      else [])
    ∧ processPair (fun _ _ => []) ("2024-01-01", "2024-01-31") "Alice" "K-1" "Task"
        (calculate_in_progress_time_for_period [] 0 0 "in progress")
        ("2024-02-01", "2024-02-28") "Bob" = [] :=
  ⟨(row_appended_iff_rounded_hours_pos (fun _ _ => []) ("2024-01-01", "2024-01-31")
      "Alice" "K-1" "Task" [] 0 0 "in progress").1,
   (row_appended_iff_rounded_hours_pos (fun _ _ => []) ("2024-01-01", "2024-01-31")
      "Alice" "K-1" "Task" [] 0 0 "in progress").2
     ("2024-02-01", "2024-02-28") "Bob" (by simp)⟩
